import Mathlib

/-!
Shallow embedding of the Dialogue Index Builder service (`main.py`).

The service groups dialogue-log records by their civil date at the fixed
UTC+9 offset, derives a placeholder daily aggregate per date, and
merge-upserts one index document per date into a keyed store.  The HTTP
endpoint `build_index` wraps the whole pipeline in a single try/except:
it answers 200 with a count message on completion and 500 with a generic
error body when any exception escapes.
-/

namespace DialogueIndexBuilder

/-- Gregorian civil date `(year, month, day)` of a count of days since
1970-01-01 (proleptic Gregorian calendar, Hinnant's algorithm), as used by
Python's `datetime` to render a date. -/
def civilFromDays (days : Int) : Int × Nat × Nat :=
  let z : Int := days + 719468
  let era : Int := z.fdiv 146097
  let doe : Nat := (z - era * 146097).toNat
  let yoe : Nat := (doe - doe / 1460 + doe / 36524 - doe / 146096) / 365
  let y : Int := (yoe : Int) + era * 400
  let doy : Nat := doe - (365 * yoe + yoe / 4 - yoe / 100)
  let mp : Nat := (5 * doy + 2) / 153
  let d : Nat := doy - (153 * mp + 2) / 5 + 1
  let m : Nat := if mp < 10 then mp + 3 else mp - 9
  (if m ≤ 2 then y + 1 else y, m, d)

/-- Two-digit zero padding, as in `strftime` fields `%m` and `%d`. -/
def pad2 (n : Nat) : String :=
  if n < 10 then "0" ++ toString n else toString n

/-- `created_at_dt.astimezone(timezone(timedelta(hours=9))).strftime("%Y-%m-%d")`:
the civil date, formatted `YYYY-MM-DD`, of the instant `t` (seconds since the
Unix epoch) at the fixed UTC+9 offset. -/
def jstDateStr (t : Int) : String :=
  let c := civilFromDays ((t + 9 * 3600).fdiv 86400)
  toString c.1 ++ "-" ++ pad2 c.2.1 ++ "-" ++ pad2 c.2.2

/-- Days since 1970-01-01 of a Gregorian civil date (inverse of
`civilFromDays`). -/
def daysFromCivil (y : Int) (m d : Nat) : Int :=
  let y2 : Int := if m ≤ 2 then y - 1 else y
  let era : Int := y2.fdiv 400
  let yoe : Nat := (y2 - era * 400).toNat
  let mp : Nat := if 2 < m then m - 3 else m + 9
  let doy : Nat := (153 * mp + 2) / 5 + d - 1
  let doe : Nat := yoe * 365 + yoe / 4 - yoe / 100 + doy
  era * 146097 + (doe : Int) - 719468

/-- Splits a character sequence at every `-`, as the `%Y-%m-%d` format does. -/
def splitDash : List Char → List (List Char)
  | [] => [[]]
  | c :: cs =>
    if c = '-' then [] :: splitDash cs
    else
      match splitDash cs with
      | [] => [[c]]
      | g :: gs => (c :: g) :: gs

/-- Reads a non-empty all-digit group as a number, `none` otherwise. -/
def digitsToNatAux : List Char → Nat → Option Nat
  | [], acc => some acc
  | c :: cs, acc =>
    if '0' ≤ c ∧ c ≤ '9' then digitsToNatAux cs (acc * 10 + (c.toNat - 48))
    else none

/-- Reads a non-empty all-digit group as a number, `none` otherwise. -/
def digitsToNat (cs : List Char) : Option Nat :=
  match cs with
  | [] => none
  | _ :: _ => digitsToNatAux cs 0

/-- `datetime.strptime(date_str, "%Y-%m-%d").replace(tzinfo=timezone.utc)` as an
epoch instant: UTC midnight of the parsed civil date; `none` models the
`ValueError` raised on a malformed string. -/
def parseDateUTC (s : String) : Option Int :=
  match (splitDash s.toList).map digitsToNat with
  | [some y, some m, some d] => some (daysFromCivil (y : Int) m d * 86400)
  | _ => none

/-- A fetched log document: the store-assigned document id together with the
fields of `log.to_dict()` that the pipeline reads.  `createdAt = none` models a
record whose `createdAt` field is absent (the falsy check at line 49). -/
structure LogRecord where
  docId : String
  createdAt : Option Int
  title : Option String
  deriving DecidableEq

/-- An entry of a date bucket: `log_data` after `log_data["id"] = log.id`. -/
structure LogData where
  id : String
  createdAt : Int
  title : Option String
  deriving DecidableEq

/-- Lookup in an insertion-ordered string-keyed dictionary (Python `dict`). -/
def dictGet {α : Type} : List (String × α) → String → Option α
  | [], _ => none
  | p :: rest, k => if p.1 = k then some p.2 else dictGet rest k

/-- Update-or-append in an insertion-ordered string-keyed dictionary: an
existing key is updated in place via `f`, a new key is appended at the end
bound to `f dflt`.  This is `d[k] = f(d.get(k, dflt))` on a Python `dict`. -/
def dictUpsert {α : Type} : List (String × α) → String → α → (α → α) → List (String × α)
  | [], k, dflt, f => [(k, f dflt)]
  | p :: rest, k, dflt, f =>
    if p.1 = k then (p.1, f p.2) :: rest else p :: dictUpsert rest k dflt f

/-- `logs_by_date`: buckets of grouped records keyed by `YYYY-MM-DD` strings. -/
abbrev Buckets := List (String × List LogData)

/-- One iteration of the grouping loop of `build_index` (lines 45-62): skip the
record when `createdAt` is absent, otherwise append it (with its id attached)
to the bucket of its UTC+9 civil date, creating the bucket if needed. -/
def groupStep (bs : Buckets) (r : LogRecord) : Buckets :=
  match r.createdAt with
  | none => bs
  | some t => dictUpsert bs (jstDateStr t) [] (fun vs => vs ++ [⟨r.docId, t, r.title⟩])

/-- The whole grouping phase of `build_index` over the fetched records. -/
def groupLogs (logs : List LogRecord) : Buckets :=
  logs.foldl groupStep []

/-- The bucket entry (if any) that record `r` contributes to the bucket of
key `k`. -/
def toBucketEntry (k : String) (r : LogRecord) : Option LogData :=
  match r.createdAt with
  | none => none
  | some t => if jstDateStr t = k then some ⟨r.docId, t, r.title⟩ else none

/-- The fetch-ordered list of records whose UTC+9 civil date is `k`. -/
def logsFor (logs : List LogRecord) (k : String) : List LogData :=
  logs.filterMap (toBucketEntry k)

/-- Combines an existing bucket (if any) with further records of its date:
used to characterise the grouping fold. -/
def bucketJoin (o : Option (List LogData)) (l : List LogData) : Option (List LogData) :=
  match o, l with
  | none, [] => none
  | none, l => some l
  | some vs, l => some (vs ++ l)

/-- A key moment inside a time chunk (lines 113-118). -/
structure KeyMoment where
  topic : String
  timestamp : String
  articleId : String
  articleTitle : String
  deriving DecidableEq

/-- A time chunk of a daily index (lines 106-120). -/
structure TimeChunk where
  startTime : String
  endTime : String
  chunkSummary : String
  categories : List String
  tags : List String
  keyMoments : List KeyMoment
  deriving DecidableEq

/-- The fallback title used when a record has no `title` field (line 117). -/
def defaultTitle : String := "無題の対話ログ"

/-- `daily_summary` (lines 97-99): templated string embedding the date string
and the record count. -/
def dailySummaryStr (dateStr : String) (n : Nat) : String :=
  dateStr ++ "の対話要約。この日は" ++ toString n ++ "件の対話記録がありました。"

/-- The single dummy chunk built from `first_log = logs[0]` (lines 104-121). -/
def chunkOf (firstLog : LogData) : TimeChunk :=
  { startTime := "10:00"
    endTime := "12:59"
    chunkSummary := "AI司書の設計に関する議論が行われました。"
    categories := ["システム設計", "バックエンド"]
    tags := ["Cloud Run", "Firestore", "API設計"]
    keyMoments := [{ topic := "最初のキーモーメントのトピック"
                     timestamp := "10:15"
                     articleId := firstLog.id
                     articleTitle := firstLog.title.getD defaultTitle }] }

/-- The analysis output of `process_daily_logs` for one date. -/
structure Aggregate where
  dailySummary : String
  timeChunks : List TimeChunk
  deriving DecidableEq

/-- The pure analysis part of `process_daily_logs` (lines 97-121): `none`
models the `IndexError` that `logs[0]` raises on an empty bucket. -/
def dailyAggregate (dateStr : String) (logs : List LogData) : Option Aggregate :=
  match logs with
  | [] => none
  | firstLog :: rest =>
    some ⟨dailySummaryStr dateStr (firstLog :: rest).length, [chunkOf firstLog]⟩

/-- A document of the `dialogue_index` collection.  The four named fields are
the ones this pipeline writes (line 124-129); `extra` holds any fields written
by other processes, which a merge-upsert must leave intact. -/
structure StoredDoc where
  date : Option Int
  dailySummary : Option String
  timeChunks : Option (List TimeChunk)
  updatedAt : Option Nat
  extra : List (String × String)
  deriving DecidableEq

/-- The `dialogue_index` collection, keyed by date string. -/
abbrev Store := List (String × StoredDoc)

/-- A document none of whose fields has ever been written. -/
def emptyDoc : StoredDoc := ⟨none, none, none, none, []⟩

/-- `index_doc_data` minus the server-assigned `updatedAt` sentinel. -/
structure WriteData where
  date : Int
  dailySummary : String
  timeChunks : List TimeChunk
  deriving DecidableEq

/-- `doc_ref.set(index_doc_data, merge=True)` (lines 131-133): the four
written fields replace the stored ones, fields not in the write (`extra`)
are left as they are; `ts` is the value the server assigns to the
`SERVER_TIMESTAMP` sentinel. -/
def storeSet (store : Store) (k : String) (w : WriteData) (ts : Nat) : Store :=
  dictUpsert store k emptyDoc
    (fun old => ⟨some w.date, some w.dailySummary, some w.timeChunks, some ts, old.extra⟩)

/-- `index_doc_data` (lines 123-129) for one date: the aggregate plus the
parsed `date` field; `none` models an exception from `logs[0]` or `strptime`. -/
def dailyWriteData (dateStr : String) (logs : List LogData) : Option WriteData :=
  match dailyAggregate dateStr logs with
  | none => none
  | some agg =>
    match parseDateUTC dateStr with
    | none => none
    | some dt => some ⟨dt, agg.dailySummary, agg.timeChunks⟩

/-- `process_daily_logs` (lines 85-135): builds the write data and performs the
merge-upsert.  `failsAt` says for which dates the store write raises; `none`
models an exception escaping the call (there is no try/except inside it). -/
def processDailyLogs (failsAt : String → Bool) (ts : Nat) (store : Store)
    (dateStr : String) (logs : List LogData) : Option Store :=
  match dailyWriteData dateStr logs with
  | none => none
  | some w => if failsAt dateStr then none else some (storeSet store dateStr w ts)

/-- The `for date_str, logs in logs_by_date.items()` loop (lines 67-68): the
Boolean records whether the loop ran to completion; on the first exception the
loop stops and the writes already performed are kept. -/
def runLoop (failsAt : String → Bool) (ts : Nat) : Store → Buckets → Store × Bool
  | store, [] => (store, true)
  | store, (d, ls) :: rest =>
    match processDailyLogs failsAt ts store d ls with
    | none => (store, false)
    | some s2 => runLoop failsAt ts s2 rest

/-- An HTTP response: status code plus JSON object body. -/
structure HttpResponse where
  status : Nat
  body : List (String × String)
  deriving DecidableEq

/-- The 200 body (lines 70-78): count of date buckets in the message. -/
def successBody (n : Nat) : List (String × String) :=
  [("status", "success"), ("message", toString n ++ "日分のインデックスを更新しました。")]

/-- The 500 body (line 82): generic, no internal detail. -/
def errorBody : List (String × String) :=
  [("status", "error"), ("message", "Internal Server Error")]

/-- The endpoint `build_index` (lines 29-82).  `fetched` is the outcome of the
Firestore query (`Except.error` models a fetch failure); the single top-level
try/except turns any escaping exception into the 500 response while keeping
the writes performed so far. -/
def build_index (fetched : Except Unit (List LogRecord)) (failsAt : String → Bool)
    (ts : Nat) (store : Store) : HttpResponse × Store :=
  match fetched with
  | Except.error _ => (⟨500, errorBody⟩, store)
  | Except.ok logs =>
    let buckets := groupLogs logs
    match runLoop failsAt ts store buckets with
    | (s2, true) => (⟨200, successBody buckets.length⟩, s2)
    | (s2, false) => (⟨500, errorBody⟩, s2)

/-- A date bucket whose processing raises no exception: the writable data
exists and the store write does not fail. -/
def bucketOk (failsAt : String → Bool) (p : String × List LogData) : Bool :=
  (dailyWriteData p.1 p.2).isSome && !failsAt p.1

/-- The last bucket of the list whose key is `k`. -/
def lastBucket : Buckets → String → Option (String × List LogData)
  | [], _ => none
  | p :: rest, k =>
    match lastBucket rest k with
    | some q => some q
    | none => if p.1 = k then some p else none

/-- The analysis fields (`dailySummary`, `timeChunks`) of the document stored
at key `k`: everything of a daily index except `date` and `updatedAt`. -/
def fieldsAt (store : Store) (k : String) : Option (Option String × Option (List TimeChunk)) :=
  (dictGet store k).map (fun doc => (doc.dailySummary, doc.timeChunks))

/-! ### Dictionary lemmas -/

theorem dictGet_dictUpsert {α : Type} (m : List (String × α)) (k2 k : String)
    (dflt : α) (f : α → α) :
    dictGet (dictUpsert m k2 dflt f) k =
      if k2 = k then some (f ((dictGet m k2).getD dflt)) else dictGet m k := by
  induction m with
  | nil =>
    by_cases h : k2 = k <;> simp [dictUpsert, dictGet, h]
  | cons p rest ih =>
    by_cases hp : p.1 = k2
    · by_cases hk : k2 = k
      · subst hk; simp [dictUpsert, dictGet, hp]
      · have hpk : ¬ p.1 = k := by rw [hp]; exact hk
        simp [dictUpsert, dictGet, hp, hk, hpk]
    · by_cases hpk : p.1 = k
      · have hk : ¬ k2 = k := by intro h; exact hp (hpk.trans h.symm)
        have hk2 : ¬ k = k2 := fun h => hk h.symm
        simp [dictUpsert, dictGet, hp, hk, hpk, hk2]
      · simp [dictUpsert, dictGet, hp, hpk, ih]

theorem mem_keys_dictUpsert {α : Type} (m : List (String × α)) (k2 k : String)
    (dflt : α) (f : α → α) :
    k ∈ (dictUpsert m k2 dflt f).map Prod.fst ↔ k ∈ m.map Prod.fst ∨ k = k2 := by
  induction m with
  | nil => simp [dictUpsert]
  | cons p rest ih =>
    by_cases hp : p.1 = k2
    · subst hp
      rw [show dictUpsert (p :: rest) p.1 dflt f = (p.1, f p.2) :: rest by
        simp [dictUpsert]]
      simp only [List.map_cons, List.mem_cons]
      tauto
    · rw [show dictUpsert (p :: rest) k2 dflt f = p :: dictUpsert rest k2 dflt f by
        simp [dictUpsert, hp]]
      simp only [List.map_cons, List.mem_cons, ih]
      tauto

theorem nodup_keys_dictUpsert {α : Type} (m : List (String × α)) (k2 : String)
    (dflt : α) (f : α → α) (h : (m.map Prod.fst).Nodup) :
    ((dictUpsert m k2 dflt f).map Prod.fst).Nodup := by
  induction m with
  | nil => simp [dictUpsert]
  | cons p rest ih =>
    rw [List.map_cons, List.nodup_cons] at h
    by_cases hp : p.1 = k2
    · simp only [dictUpsert, if_pos hp, List.map_cons, List.nodup_cons]
      exact h
    · simp only [dictUpsert, if_neg hp, List.map_cons, List.nodup_cons]
      refine ⟨?_, ih h.2⟩
      rw [mem_keys_dictUpsert]
      rintro (hm | hm)
      · exact h.1 hm
      · exact hp hm

theorem dictGet_of_mem {α : Type} {m : List (String × α)} {k : String} {v : α}
    (hnd : (m.map Prod.fst).Nodup) (h : (k, v) ∈ m) : dictGet m k = some v := by
  induction m with
  | nil => cases h
  | cons p rest ih =>
    rw [List.map_cons, List.nodup_cons] at hnd
    rcases List.mem_cons.mp h with h1 | h1
    · subst h1; simp [dictGet]
    · have hk : ¬ p.1 = k := by
        intro he
        exact hnd.1 (he ▸ (List.mem_map.mpr ⟨(k, v), h1, rfl⟩))
      simp [dictGet, hk, ih hnd.2 h1]

theorem mem_of_dictGet {α : Type} {m : List (String × α)} {k : String} {v : α}
    (h : dictGet m k = some v) : (k, v) ∈ m := by
  induction m with
  | nil => simp [dictGet] at h
  | cons p rest ih =>
    by_cases hp : p.1 = k
    · simp only [dictGet, if_pos hp] at h
      cases h
      exact hp ▸ List.mem_cons_self p rest
    · simp only [dictGet, if_neg hp] at h
      exact List.mem_cons_of_mem _ (ih h)

/-! ### Grouping lemmas -/

theorem nodup_keys_groupStep_foldl (logs : List LogRecord) (bs : Buckets)
    (h : (bs.map Prod.fst).Nodup) : ((logs.foldl groupStep bs).map Prod.fst).Nodup := by
  induction logs generalizing bs with
  | nil => exact h
  | cons r rest ih =>
    rw [List.foldl_cons]
    refine ih _ ?_
    cases hc : r.createdAt with
    | none => simpa [groupStep, hc] using h
    | some t =>
      rw [show groupStep bs r =
          dictUpsert bs (jstDateStr t) [] (fun vs => vs ++ [⟨r.docId, t, r.title⟩]) by
        simp [groupStep, hc]]
      exact nodup_keys_dictUpsert _ _ _ _ h

theorem groupLogs_keys_nodup (logs : List LogRecord) :
    ((groupLogs logs).map Prod.fst).Nodup :=
  nodup_keys_groupStep_foldl logs [] (by simp)

theorem bucketJoin_none_nil : bucketJoin none [] = none := rfl

theorem bucketJoin_none_cons (x : LogData) (l : List LogData) :
    bucketJoin none (x :: l) = some (x :: l) := rfl

theorem bucketJoin_some (vs l : List LogData) :
    bucketJoin (some vs) l = some (vs ++ l) := rfl

theorem bucketJoin_snoc (o : Option (List LogData)) (v : LogData) (l : List LogData) :
    bucketJoin (some (o.getD [] ++ [v])) l = bucketJoin o (v :: l) := by
  cases o <;> simp [bucketJoin]

theorem dictGet_foldl_groupStep (logs : List LogRecord) (bs : Buckets) (k : String) :
    dictGet (logs.foldl groupStep bs) k = bucketJoin (dictGet bs k) (logsFor logs k) := by
  induction logs generalizing bs with
  | nil =>
    cases h : dictGet bs k <;> simp [logsFor, h, bucketJoin]
  | cons r rest ih =>
    rw [List.foldl_cons]
    cases hc : r.createdAt with
    | none =>
      rw [show groupStep bs r = bs by simp [groupStep, hc]]
      rw [show logsFor (r :: rest) k = logsFor rest k by
        simp [logsFor, List.filterMap_cons, toBucketEntry, hc]]
      exact ih bs
    | some t =>
      rw [show groupStep bs r =
          dictUpsert bs (jstDateStr t) [] (fun vs => vs ++ [⟨r.docId, t, r.title⟩]) by
        simp [groupStep, hc]]
      by_cases hk : jstDateStr t = k
      · have hentry : toBucketEntry k r = some ⟨r.docId, t, r.title⟩ := by
          simp [toBucketEntry, hc, hk]
        have hlf : logsFor (r :: rest) k = ⟨r.docId, t, r.title⟩ :: logsFor rest k := by
          simp [logsFor, List.filterMap_cons, hentry]
        rw [hlf, ih, dictGet_dictUpsert, if_pos hk, hk, bucketJoin_snoc]
      · have hentry : toBucketEntry k r = none := by
          simp [toBucketEntry, hc, hk]
        have hlf : logsFor (r :: rest) k = logsFor rest k := by
          simp [logsFor, List.filterMap_cons, hentry]
        rw [hlf, ih, dictGet_dictUpsert, if_neg hk]

theorem dictGet_groupLogs (logs : List LogRecord) (k : String) :
    dictGet (groupLogs logs) k =
      if logsFor logs k = [] then none else some (logsFor logs k) := by
  rw [groupLogs, dictGet_foldl_groupStep]
  cases hl : logsFor logs k with
  | nil => simp [dictGet, bucketJoin]
  | cons x xs => simp [dictGet, bucketJoin]

/-- A bucket of `groupLogs` is exactly the fetch-ordered list of records of
its date, in particular it is non-empty. -/
theorem bucket_eq_logsFor {logs : List LogRecord} {k : String} {vs : List LogData}
    (h : (k, vs) ∈ groupLogs logs) : vs = logsFor logs k ∧ vs ≠ [] := by
  have hg : dictGet (groupLogs logs) k = some vs :=
    dictGet_of_mem (groupLogs_keys_nodup logs) h
  rw [dictGet_groupLogs] at hg
  by_cases hl : logsFor logs k = []
  · rw [if_pos hl] at hg; cases hg
  · rw [if_neg hl] at hg
    have := (Option.some_inj.mp hg).symm
    exact ⟨this, by rw [this]; exact hl⟩

/-! ### Run-loop lemmas -/

theorem processDailyLogs_of_ok {failsAt : String → Bool} {d : String} {ls : List LogData}
    (ts : Nat) (store : Store) (h : bucketOk failsAt (d, ls) = true) :
    ∃ w, dailyWriteData d ls = some w ∧
      processDailyLogs failsAt ts store d ls = some (storeSet store d w ts) := by
  rw [bucketOk, Bool.and_eq_true, Bool.not_eq_true'] at h
  obtain ⟨w, hw⟩ := Option.isSome_iff_exists.mp h.1
  exact ⟨w, hw, by simp [processDailyLogs, hw, h.2]⟩

theorem processDailyLogs_of_fail {failsAt : String → Bool} {d : String} {ls : List LogData}
    (ts : Nat) (store : Store) (h : bucketOk failsAt (d, ls) = false) :
    processDailyLogs failsAt ts store d ls = none := by
  rw [bucketOk, Bool.and_eq_false_iff] at h
  rcases h with h | h
  · have hw : dailyWriteData d ls = none := by
      cases hd : dailyWriteData d ls
      · rfl
      · rw [hd] at h; cases h
    simp [processDailyLogs, hw]
  · have hf : failsAt d = true := by
      cases hd : failsAt d
      · rw [hd] at h; cases h
      · rfl
    cases hw : dailyWriteData d ls <;> simp [processDailyLogs, hw, hf]

theorem processDailyLogs_some_inv {failsAt : String → Bool} {ts : Nat} {store : Store}
    {d : String} {ls : List LogData} {s2 : Store}
    (h : processDailyLogs failsAt ts store d ls = some s2) :
    ∃ w, dailyWriteData d ls = some w ∧ failsAt d = false ∧ s2 = storeSet store d w ts := by
  rw [processDailyLogs] at h
  cases hw : dailyWriteData d ls with
  | none => rw [hw] at h; cases h
  | some w =>
    rw [hw] at h
    cases hf : failsAt d with
    | false => rw [hf] at h; simp at h; exact ⟨w, rfl, rfl, h.symm⟩
    | true => rw [hf] at h; simp at h

theorem runLoop_ok_iff (failsAt : String → Bool) (ts : Nat) (store : Store) (bs : Buckets) :
    (runLoop failsAt ts store bs).2 = true ↔ ∀ p ∈ bs, bucketOk failsAt p = true := by
  induction bs generalizing store with
  | nil => simp [runLoop]
  | cons p rest ih =>
    obtain ⟨d, ls⟩ := p
    cases hok : bucketOk failsAt (d, ls) with
    | true =>
      obtain ⟨w, hw, hp⟩ := processDailyLogs_of_ok ts store hok
      rw [runLoop, hp]
      simp only [List.mem_cons]
      constructor
      · intro h q hq
        rcases hq with hq | hq
        · subst hq; exact hok
        · exact ((ih _).mp h) q hq
      · intro h
        exact (ih _).mpr (fun q hq => h q (Or.inr hq))
    | false =>
      rw [runLoop, processDailyLogs_of_fail ts store hok]
      simp only [List.mem_cons]
      constructor
      · intro h; cases h
      · intro h
        have := h (d, ls) (Or.inl rfl)
        rw [hok] at this; cases this

theorem runLoop_append_ok (failsAt : String → Bool) (ts : Nat) (store : Store)
    (pre rest : Buckets) (h : ∀ p ∈ pre, bucketOk failsAt p = true) :
    runLoop failsAt ts store (pre ++ rest) =
      runLoop failsAt ts (runLoop failsAt ts store pre).1 rest := by
  induction pre generalizing store with
  | nil => simp [runLoop]
  | cons p ps ih =>
    obtain ⟨d, ls⟩ := p
    obtain ⟨w, hw, hp⟩ :=
      processDailyLogs_of_ok ts store (h (d, ls) (List.mem_cons_self _ _))
    rw [List.cons_append, runLoop, hp, runLoop, hp]
    exact ih _ (fun q hq => h q (List.mem_cons_of_mem _ hq))

theorem fieldsAt_storeSet (store : Store) (k2 k : String) (w : WriteData) (ts : Nat) :
    fieldsAt (storeSet store k2 w ts) k =
      if k2 = k then some (some w.dailySummary, some w.timeChunks) else fieldsAt store k := by
  rw [fieldsAt, storeSet, dictGet_dictUpsert]
  by_cases h : k2 = k <;> simp [h, fieldsAt]

theorem fieldsAt_runLoop (failsAt : String → Bool) (ts : Nat) (bs : Buckets) (store : Store)
    (h : ∀ p ∈ bs, bucketOk failsAt p = true) (k : String) :
    fieldsAt (runLoop failsAt ts store bs).1 k =
      ((lastBucket bs k).map
        (fun q => (dailyWriteData q.1 q.2).map
          (fun w => (some w.dailySummary, some w.timeChunks)))).getD (fieldsAt store k) := by
  induction bs generalizing store with
  | nil => simp [runLoop, lastBucket]
  | cons p rest ih =>
    obtain ⟨d, ls⟩ := p
    obtain ⟨w, hw, hp⟩ :=
      processDailyLogs_of_ok ts store (h (d, ls) (List.mem_cons_self _ _))
    rw [runLoop, hp, ih _ (fun q hq => h q (List.mem_cons_of_mem _ hq))]
    cases hlast : lastBucket rest k with
    | some q =>
      rw [show lastBucket ((d, ls) :: rest) k = some q by rw [lastBucket, hlast]]
      simp
    | none =>
      rw [show lastBucket ((d, ls) :: rest) k =
          (if d = k then some (d, ls) else none) by rw [lastBucket, hlast]]
      by_cases hdk : d = k
      · simp only [Option.map_none, Option.getD_none, if_pos hdk]
        rw [fieldsAt_storeSet, if_pos hdk]
        simp [hw]
      · simp only [Option.map_none, Option.getD_none, if_neg hdk]
        rw [fieldsAt_storeSet, if_neg hdk]

theorem dictGet_runLoop_untouched (failsAt : String → Bool) (ts : Nat) (bs : Buckets)
    (store : Store) (k : String) (h : ∀ p ∈ bs, p.1 ≠ k) :
    dictGet (runLoop failsAt ts store bs).1 k = dictGet store k := by
  induction bs generalizing store with
  | nil => rfl
  | cons p rest ih =>
    obtain ⟨d, ls⟩ := p
    cases hp : processDailyLogs failsAt ts store d ls with
    | none => rw [runLoop, hp]
    | some s2 =>
      obtain ⟨w, hw, hf, hs⟩ := processDailyLogs_some_inv hp
      rw [runLoop, hp]
      rw [ih _ (fun q hq => h q (List.mem_cons_of_mem _ hq)), hs, storeSet,
        dictGet_dictUpsert, if_neg (h (d, ls) (List.mem_cons_self _ _))]

theorem extra_preserved_runLoop (failsAt : String → Bool) (ts : Nat) (bs : Buckets)
    (store : Store) (k : String) (doc : StoredDoc) (h : dictGet store k = some doc) :
    ∃ doc2, dictGet (runLoop failsAt ts store bs).1 k = some doc2 ∧
      doc2.extra = doc.extra := by
  induction bs generalizing store doc with
  | nil => exact ⟨doc, h, rfl⟩
  | cons p rest ih =>
    obtain ⟨d, ls⟩ := p
    cases hp : processDailyLogs failsAt ts store d ls with
    | none => rw [runLoop, hp]; exact ⟨doc, h, rfl⟩
    | some s2 =>
      obtain ⟨w, hw, hf, hs⟩ := processDailyLogs_some_inv hp
      rw [runLoop, hp]
      by_cases hdk : d = k
      · have hget : dictGet s2 k =
            some ⟨some w.date, some w.dailySummary, some w.timeChunks, some ts, doc.extra⟩ := by
          rw [hs, storeSet, dictGet_dictUpsert, if_pos hdk, hdk, h]
          rfl
        obtain ⟨doc2, hd2, he2⟩ := ih _ _ hget
        exact ⟨doc2, hd2, he2⟩
      · have hget : dictGet s2 k = some doc := by
          rw [hs, storeSet, dictGet_dictUpsert, if_neg hdk, h]
        exact ih _ _ hget

/-! ### Claim theorems -/

/-- C1: every fetched record with a `createdAt` timestamp lands in exactly one
date bucket: the bucket keys are pairwise distinct, the record is in the bucket
keyed by its `createdAt` converted to the fixed UTC+9 offset and formatted
`YYYY-MM-DD`, and any bucket containing it carries exactly that key. -/
theorem grouping_places_record_once (logs : List LogRecord) (r : LogRecord) (t : Int)
    (hr : r ∈ logs) (ht : r.createdAt = some t) :
    (∃ vs, dictGet (groupLogs logs) (jstDateStr t) = some vs ∧
        (⟨r.docId, t, r.title⟩ : LogData) ∈ vs) ∧
    (∀ p ∈ groupLogs logs, (⟨r.docId, t, r.title⟩ : LogData) ∈ p.2 → p.1 = jstDateStr t) ∧
    ((groupLogs logs).map Prod.fst).Nodup := by
  have hmem : (⟨r.docId, t, r.title⟩ : LogData) ∈ logsFor logs (jstDateStr t) :=
    List.mem_filterMap.mpr ⟨r, hr, by simp [toBucketEntry, ht]⟩
  have hne : logsFor logs (jstDateStr t) ≠ [] := List.ne_nil_of_mem hmem
  refine ⟨⟨logsFor logs (jstDateStr t), ?_, hmem⟩, ?_, groupLogs_keys_nodup logs⟩
  · rw [dictGet_groupLogs, if_neg hne]
  · rintro ⟨k, vs⟩ hp hv
    obtain ⟨hvs, -⟩ := bucket_eq_logsFor hp
    rw [hvs] at hv
    obtain ⟨a, ha, hent⟩ := List.mem_filterMap.mp hv
    cases hc : a.createdAt with
    | none => simp [toBucketEntry, hc] at hent
    | some t2 =>
      simp only [toBucketEntry, hc] at hent
      by_cases hjk : jstDateStr t2 = k
      · rw [if_pos hjk] at hent
        have ht2 : t2 = t := congrArg LogData.createdAt (Option.some_inj.mp hent)
        show k = jstDateStr t
        rw [← hjk, ht2]
      · rw [if_neg hjk] at hent; cases hent

/-- C1 witness: a concrete one-record fetch on 2025-07-16 (UTC+9). -/
theorem grouping_places_record_once_witness :
    ((⟨"a", some 1752627600, none⟩ : LogRecord) ∈
        [(⟨"a", some 1752627600, none⟩ : LogRecord)]) ∧
    ((⟨"a", some 1752627600, none⟩ : LogRecord).createdAt = some 1752627600) ∧
    (∃ vs, dictGet (groupLogs [⟨"a", some 1752627600, none⟩]) (jstDateStr 1752627600) =
        some vs ∧ (⟨"a", 1752627600, none⟩ : LogData) ∈ vs) :=
  ⟨List.mem_singleton.mpr rfl, rfl,
    (grouping_places_record_once [⟨"a", some 1752627600, none⟩] ⟨"a", some 1752627600, none⟩
      1752627600 (List.mem_singleton.mpr rfl) rfl).1⟩

/-- C2 counterexample: records on 2025-07-16 and 2025-07-17 with a write
failure on the first date — the run answers 500 (no success report with a
reduced count) and the second date's index document is never written, so a
failure for one date does abort the processing of the others. -/
theorem isolation_failure_counterexample :
    (build_index
        (Except.ok [⟨"a", some 1752627600, none⟩, ⟨"b", some 1752714000, none⟩])
        (fun d => d == "2025-07-16") 0 []).1.status = 500 ∧
    dictGet (build_index
        (Except.ok [⟨"a", some 1752627600, none⟩, ⟨"b", some 1752714000, none⟩])
        (fun d => d == "2025-07-16") 0 []).2 ("2025-07-17") = none :=
  ⟨rfl, rfl⟩

/-- C2 (amended): when aggregation or writing fails for one date, the loop
aborts there: dates grouped before it keep their writes, the endpoint answers
500 with the generic error body instead of a success report, and every key no
earlier date wrote keeps its previous stored value — in particular the dates
after the failing one are not produced. -/
theorem per_date_failure_aborts_run (logs : List LogRecord) (failsAt : String → Bool)
    (ts : Nat) (store : Store) (pre post : Buckets) (d : String) (ls : List LogData)
    (hsplit : groupLogs logs = pre ++ (d, ls) :: post)
    (hpre : ∀ p ∈ pre, bucketOk failsAt p = true)
    (hfail : bucketOk failsAt (d, ls) = false) :
    build_index (Except.ok logs) failsAt ts store =
      (⟨500, errorBody⟩, (runLoop failsAt ts store pre).1) ∧
    ∀ k, (∀ p ∈ pre, p.1 ≠ k) →
      dictGet (build_index (Except.ok logs) failsAt ts store).2 k = dictGet store k := by
  have hrun : runLoop failsAt ts store (groupLogs logs) =
      ((runLoop failsAt ts store pre).1, false) := by
    rw [hsplit, runLoop_append_ok _ _ _ _ _ hpre, runLoop,
      processDailyLogs_of_fail _ _ hfail]
  have hbi : build_index (Except.ok logs) failsAt ts store =
      (⟨500, errorBody⟩, (runLoop failsAt ts store pre).1) := by
    simp [build_index, hrun]
  refine ⟨hbi, fun k hk => ?_⟩
  rw [hbi]
  exact dictGet_runLoop_untouched failsAt ts pre store k hk

/-- C2 amended-claim witness: the write for 2025-07-17 fails, 2025-07-16 was
already written, the response is the 500 error and the failing date's key is
untouched. -/
theorem per_date_failure_aborts_run_witness :
    (groupLogs [⟨"a", some 1752627600, none⟩, ⟨"b", some 1752714000, none⟩] =
      [("2025-07-16", [⟨"a", 1752627600, none⟩])] ++
        ("2025-07-17", [⟨"b", 1752714000, none⟩]) :: []) ∧
    (bucketOk (fun d => d == "2025-07-17") ("2025-07-17", [⟨"b", 1752714000, none⟩]) =
      false) ∧
    (build_index (Except.ok [⟨"a", some 1752627600, none⟩, ⟨"b", some 1752714000, none⟩])
        (fun d => d == "2025-07-17") 5 [] =
      (⟨500, errorBody⟩,
        (runLoop (fun d => d == "2025-07-17") 5 []
          [("2025-07-16", [⟨"a", 1752627600, none⟩])]).1)) ∧
    dictGet (build_index
        (Except.ok [⟨"a", some 1752627600, none⟩, ⟨"b", some 1752714000, none⟩])
        (fun d => d == "2025-07-17") 5 []).2 ("2025-07-17") =
      dictGet ([] : Store) ("2025-07-17") := by
  have h := per_date_failure_aborts_run
    [⟨"a", some 1752627600, none⟩, ⟨"b", some 1752714000, none⟩]
    (fun d => d == "2025-07-17") 5 []
    [("2025-07-16", [⟨"a", 1752627600, none⟩])] []
    "2025-07-17" [⟨"b", 1752714000, none⟩]
    (by decide) (by decide) (by decide)
  exact ⟨by decide, by decide, h.1, h.2 "2025-07-17" (by decide)⟩

/-- C3: a second run over unchanged logs (with a possibly different server
timestamp) leaves every stored document's `dailySummary` and `timeChunks`
exactly as the first successful run wrote them: the per-date aggregate is a
pure function of the bucket. -/
theorem rerun_preserves_analysis_fields (logs : List LogRecord) (failsAt : String → Bool)
    (ts1 ts2 : Nat) (store0 : Store)
    (h1 : (build_index (Except.ok logs) failsAt ts1 store0).1.status = 200) (k : String) :
    fieldsAt (build_index (Except.ok logs) failsAt ts2
        (build_index (Except.ok logs) failsAt ts1 store0).2).2 k =
      fieldsAt (build_index (Except.ok logs) failsAt ts1 store0).2 k := by
  cases hrl1 : runLoop failsAt ts1 store0 (groupLogs logs) with
  | mk s1 b1 =>
    cases b1 with
    | false => simp [build_index, hrl1] at h1
    | true =>
      have hok : ∀ p ∈ groupLogs logs, bucketOk failsAt p = true :=
        (runLoop_ok_iff failsAt ts1 store0 (groupLogs logs)).mp (by rw [hrl1])
      have hb1 : (build_index (Except.ok logs) failsAt ts1 store0).2 = s1 := by
        simp [build_index, hrl1]
      cases hrl2 : runLoop failsAt ts2 s1 (groupLogs logs) with
      | mk s2 b2 =>
        have hb2 : (build_index (Except.ok logs) failsAt ts2 s1).2 = s2 := by
          cases b2 <;> simp [build_index, hrl2]
        rw [hb1, hb2]
        have hf1 : fieldsAt s1 k =
            ((lastBucket (groupLogs logs) k).map
              (fun q => (dailyWriteData q.1 q.2).map
                (fun w => (some w.dailySummary, some w.timeChunks)))).getD
              (fieldsAt store0 k) := by
          have h := fieldsAt_runLoop failsAt ts1 (groupLogs logs) store0 hok k
          rw [hrl1] at h
          exact h
        have hf2 : fieldsAt s2 k =
            ((lastBucket (groupLogs logs) k).map
              (fun q => (dailyWriteData q.1 q.2).map
                (fun w => (some w.dailySummary, some w.timeChunks)))).getD
              (fieldsAt s1 k) := by
          have h := fieldsAt_runLoop failsAt ts2 (groupLogs logs) s1 hok k
          rw [hrl2] at h
          exact h
        rw [hf2]
        cases hlast : lastBucket (groupLogs logs) k with
        | some q => rw [hf1, hlast]; simp
        | none => simp

/-- C3 witness: one record, one successful run, rerun with another server
timestamp; the analysis fields at the record's date coincide. -/
theorem rerun_preserves_analysis_fields_witness :
    ((build_index (Except.ok [⟨"a", some 1752627600, none⟩]) (fun _ => false) 1 []).1.status
        = 200) ∧
    fieldsAt (build_index (Except.ok [⟨"a", some 1752627600, none⟩]) (fun _ => false) 2
        (build_index (Except.ok [⟨"a", some 1752627600, none⟩]) (fun _ => false) 1 []).2).2
        ("2025-07-16") =
      fieldsAt (build_index (Except.ok [⟨"a", some 1752627600, none⟩]) (fun _ => false) 1
        []).2 ("2025-07-16") :=
  ⟨rfl, rerun_preserves_analysis_fields [⟨"a", some 1752627600, none⟩] (fun _ => false)
      1 2 [] rfl "2025-07-16"⟩

/-- C4: a record whose `createdAt` is absent changes nothing: removing it from
the fetched sequence leaves the grouping and the whole run (response and final
store) unchanged — it is in no bucket, contributes to no written document, and
raises no error. -/
theorem missing_timestamp_record_excluded (xs ys : List LogRecord) (r : LogRecord)
    (failsAt : String → Bool) (ts : Nat) (store : Store) (h : r.createdAt = none) :
    groupLogs (xs ++ r :: ys) = groupLogs (xs ++ ys) ∧
    build_index (Except.ok (xs ++ r :: ys)) failsAt ts store =
      build_index (Except.ok (xs ++ ys)) failsAt ts store := by
  have hg : groupLogs (xs ++ r :: ys) = groupLogs (xs ++ ys) := by
    rw [groupLogs, groupLogs, List.foldl_append, List.foldl_append, List.foldl_cons]
    rw [show groupStep (xs.foldl groupStep []) r = xs.foldl groupStep [] by
      simp [groupStep, h]]
  exact ⟨hg, by simp [build_index, hg]⟩

/-- C4 witness: an undated record fetched alongside one valid record. -/
theorem missing_timestamp_record_excluded_witness :
    ((⟨"x", none, none⟩ : LogRecord).createdAt = none) ∧
    (groupLogs ([] ++ (⟨"x", none, none⟩ : LogRecord) :: [⟨"a", some 1752627600, none⟩]) =
      groupLogs ([] ++ [⟨"a", some 1752627600, none⟩])) ∧
    build_index
        (Except.ok ([] ++ (⟨"x", none, none⟩ : LogRecord) :: [⟨"a", some 1752627600, none⟩]))
        (fun _ => false) 3 [] =
      build_index (Except.ok ([] ++ [⟨"a", some 1752627600, none⟩])) (fun _ => false) 3 [] :=
  ⟨rfl, missing_timestamp_record_excluded [] [⟨"a", some 1752627600, none⟩]
      ⟨"x", none, none⟩ (fun _ => false) 3 [] rfl⟩

/-- C5: every bucket handed to the aggregation is the fetch-ordered list of its
date's records, and the single key moment of the produced chunk references the
bucket's first record — its store-assigned identifier and its title, with the
fixed default title substituted when the record has none. -/
theorem keymoment_references_first_fetched (logs : List LogRecord) (k : String)
    (vs : List LogData) (h : (k, vs) ∈ groupLogs logs) :
    vs = logsFor logs k ∧
    ∃ firstLog rest, vs = firstLog :: rest ∧
      dailyAggregate k vs = some ⟨dailySummaryStr k vs.length, [chunkOf firstLog]⟩ ∧
      (chunkOf firstLog).keyMoments =
        [⟨"最初のキーモーメントのトピック", "10:15", firstLog.id,
          firstLog.title.getD ("無題の対話ログ")⟩] := by
  obtain ⟨hvs, hne⟩ := bucket_eq_logsFor h
  refine ⟨hvs, ?_⟩
  cases hv : vs with
  | nil => exact absurd hv hne
  | cons firstLog rest => exact ⟨firstLog, rest, rfl, rfl, rfl⟩

/-- C5 witness: two records on the same date; the key moment references the
earlier-fetched one, with the default title substituted. -/
theorem keymoment_references_first_fetched_witness :
    (("2025-07-16",
        [(⟨"a", 1752627600, none⟩ : LogData), ⟨"b", 1752631200, some ("t")⟩]) ∈
      groupLogs [⟨"a", some 1752627600, none⟩, ⟨"b", some 1752631200, some ("t")⟩]) ∧
    ([(⟨"a", 1752627600, none⟩ : LogData), ⟨"b", 1752631200, some ("t")⟩] =
      logsFor [⟨"a", some 1752627600, none⟩, ⟨"b", some 1752631200, some ("t")⟩]
        ("2025-07-16") ∧
    ∃ firstLog rest,
      ([(⟨"a", 1752627600, none⟩ : LogData), ⟨"b", 1752631200, some ("t")⟩] =
        firstLog :: rest) ∧
      dailyAggregate ("2025-07-16")
          [(⟨"a", 1752627600, none⟩ : LogData), ⟨"b", 1752631200, some ("t")⟩] =
        some ⟨dailySummaryStr ("2025-07-16")
          [(⟨"a", 1752627600, none⟩ : LogData), ⟨"b", 1752631200, some ("t")⟩].length,
          [chunkOf firstLog]⟩ ∧
      (chunkOf firstLog).keyMoments =
        [⟨"最初のキーモーメントのトピック", "10:15", firstLog.id,
          firstLog.title.getD ("無題の対話ログ")⟩]) :=
  ⟨by decide, keymoment_references_first_fetched
      [⟨"a", some 1752627600, none⟩, ⟨"b", some 1752631200, some ("t")⟩]
      "2025-07-16" [⟨"a", 1752627600, none⟩, ⟨"b", 1752631200, some ("t")⟩] (by decide)⟩

/-- C6: for a non-empty bucket the aggregator yields a daily summary string
embedding the date string and the record count, and exactly one time chunk,
with the fixed 10:00 to 12:59 range. -/
theorem daily_summary_and_single_chunk (dateStr : String) (firstLog : LogData)
    (rest : List LogData) :
    ∃ agg, dailyAggregate dateStr (firstLog :: rest) = some agg ∧
      agg.dailySummary =
        dateStr ++ "の対話要約。この日は" ++ toString (rest.length + 1) ++
          "件の対話記録がありました。" ∧
      ∃ c, agg.timeChunks = [c] ∧ c.startTime = "10:00" ∧ c.endTime = "12:59" := by
  refine ⟨_, rfl, ?_, _, rfl, rfl, rfl⟩
  simp [dailySummaryStr]

/-- C7: the per-date write is a merge-upsert keyed by the date string: any
field of a stored index document that this pipeline does not write (`extra`)
is left unchanged by a rerun, whatever the fetch outcome and the per-date
failures. -/
theorem merge_upsert_preserves_extra_fields (fetched : Except Unit (List LogRecord))
    (failsAt : String → Bool) (ts : Nat) (store : Store) (k : String) (doc : StoredDoc)
    (h : dictGet store k = some doc) :
    ∃ doc2, dictGet (build_index fetched failsAt ts store).2 k = some doc2 ∧
      doc2.extra = doc.extra := by
  cases fetched with
  | error e => exact ⟨doc, h, rfl⟩
  | ok logs =>
    cases hrl : runLoop failsAt ts store (groupLogs logs) with
    | mk s2 b =>
      have hb : (build_index (Except.ok logs) failsAt ts store).2 = s2 := by
        cases b <;> simp [build_index, hrl]
      rw [hb]
      have h2 := extra_preserved_runLoop failsAt ts (groupLogs logs) store k doc h
      rw [hrl] at h2
      exact h2

/-- C7 witness: a stored document carrying an extra field survives a rerun
that rewrites its date. -/
theorem merge_upsert_preserves_extra_fields_witness :
    (dictGet [(("2025-07-16" : String),
        (⟨none, none, none, none, [("note", "keep")]⟩ : StoredDoc))] ("2025-07-16") =
      some ⟨none, none, none, none, [("note", "keep")]⟩) ∧
    ∃ doc2, dictGet (build_index (Except.ok [⟨"a", some 1752627600, none⟩])
        (fun _ => false) 4
        [("2025-07-16", ⟨none, none, none, none, [("note", "keep")]⟩)]).2
        ("2025-07-16") = some doc2 ∧
      doc2.extra = [("note", "keep")] :=
  ⟨rfl, merge_upsert_preserves_extra_fields (Except.ok [⟨"a", some 1752627600, none⟩])
      (fun _ => false) 4 [("2025-07-16", ⟨none, none, none, none, [("note", "keep")]⟩)]
      "2025-07-16" ⟨none, none, none, none, [("note", "keep")]⟩ rfl⟩

/-- C8: the endpoint always answers a JSON status payload with an HTTP code,
and in both directions: any run that completes the phase structure (fetch
succeeded and the per-date loop ran through) answers exactly 200 with the
success body counting the date buckets; a run whose loop aborted answers
exactly 500 with the generic error body; and a failed fetch answers exactly
500 with the generic error body.  These three cases are exhaustive. -/
theorem endpoint_response_shape (fetched : Except Unit (List LogRecord))
    (failsAt : String → Bool) (ts : Nat) (store : Store) :
    (∀ logs, fetched = Except.ok logs →
        (runLoop failsAt ts store (groupLogs logs)).2 = true →
        (build_index fetched failsAt ts store).1 =
          ⟨200, successBody (groupLogs logs).length⟩) ∧
    (∀ logs, fetched = Except.ok logs →
        (runLoop failsAt ts store (groupLogs logs)).2 = false →
        (build_index fetched failsAt ts store).1 = ⟨500, errorBody⟩) ∧
    (∀ e, fetched = Except.error e →
        (build_index fetched failsAt ts store).1 = ⟨500, errorBody⟩) := by
  refine ⟨?_, ?_, ?_⟩
  · rintro logs rfl hc
    cases hrl : runLoop failsAt ts store (groupLogs logs) with
    | mk s2 b =>
      cases b with
      | true => simp [build_index, hrl]
      | false => rw [hrl] at hc; cases hc
  · rintro logs rfl hc
    cases hrl : runLoop failsAt ts store (groupLogs logs) with
    | mk s2 b =>
      cases b with
      | true => rw [hrl] at hc; cases hc
      | false => simp [build_index, hrl]
  · rintro e rfl
    rfl

/-- C8 witness: a completing one-record run answers the 200 count payload, a
failed fetch answers the generic 500 payload. -/
theorem endpoint_response_shape_witness :
    ((build_index (Except.ok [⟨"a", some 1752627600, none⟩]) (fun _ => false) 7 []).1 =
      ⟨200, successBody (groupLogs [⟨"a", some 1752627600, none⟩]).length⟩) ∧
    (build_index (Except.error ()) (fun _ => false) 7 ([] : Store)).1 = ⟨500, errorBody⟩ := by
  have h1 := endpoint_response_shape (Except.ok [⟨"a", some 1752627600, none⟩])
    (fun _ => false) 7 []
  have h2 := endpoint_response_shape (Except.error ()) (fun _ => false) 7 []
  exact ⟨h1.1 [⟨"a", some 1752627600, none⟩] rfl (by decide), h2.2.2 () rfl⟩

/-- C9: zero fetched records: the grouping is empty, no write is performed
(the store is returned unchanged), and the response is the 200 success payload
counting zero days. -/
theorem empty_input_zero_days_success (failsAt : String → Bool) (ts : Nat) (store : Store) :
    build_index (Except.ok []) failsAt ts store =
      (⟨200, [("status", "success"), ("message", "0日分のインデックスを更新しました。")]⟩,
        store) := rfl

/-- C10: every bucket produced by the grouping is non-empty — a bucket is
created only at the moment a record is appended to it — so the aggregator's
access to the bucket's first record cannot fail. -/
theorem bucket_nonempty_first_access_safe (logs : List LogRecord) (k : String)
    (vs : List LogData) (h : (k, vs) ∈ groupLogs logs) :
    vs ≠ [] ∧ (dailyAggregate k vs).isSome = true := by
  obtain ⟨hvs, hne⟩ := bucket_eq_logsFor h
  refine ⟨hne, ?_⟩
  cases hv : vs with
  | nil => exact absurd hv hne
  | cons a l => simp [dailyAggregate]

/-- C10 witness: the singleton bucket of a one-record fetch. -/
theorem bucket_nonempty_first_access_safe_witness :
    (("2025-07-16", [(⟨"a", 1752627600, none⟩ : LogData)]) ∈
        groupLogs [⟨"a", some 1752627600, none⟩]) ∧
    ([(⟨"a", 1752627600, none⟩ : LogData)] ≠ [] ∧
      (dailyAggregate ("2025-07-16") [⟨"a", 1752627600, none⟩]).isSome = true) :=
  ⟨by decide, bucket_nonempty_first_access_safe [⟨"a", some 1752627600, none⟩]
      "2025-07-16" [⟨"a", 1752627600, none⟩] (by decide)⟩

end DialogueIndexBuilder
